import Mathlib

/-!
Verification development for the Term-Mail repository.

We shallowly embed the core of the program:
  * `src/utils/html_parser.py` — `html_to_text`
  * `src/providers/imap_provider.py` — the body/attachment extraction of
    `IMAPProvider._parse_email` (lines 102-141)
  * `src/providers/local_provider.py` — the `LocalProvider` store and its
    operations (`fetch_emails`, `send_email`, `get_folders`, `mark_read`,
    `delete_email`, `search_emails`), together with the on-disk mailbox
    documents it reads and writes.

Python strings are modelled as `List Char` (with `String` wrappers at the
boundary); timestamps as `Nat` (Python `datetime` values are totally ordered
and only compared); JSON objects / Python dicts as insertion-ordered
association lists with unique keys.
-/

/-! ## Python string primitives

`str.splitlines`, `str.strip`, `"\n".join`, and `re.sub(r'\n{3,}', '\n\n', ·)`,
modelled faithfully from Python semantics since `html_to_text` uses them.
-/

/-- The line-boundary characters of Python `str.splitlines` (with `"\r\n"`
treated as a single boundary, handled by `normCRLF` below). -/
def isPyLineBreak (c : Char) : Bool :=
  c = '\n' || c = '\r' || c = '\x0b' || c = '\x0c' ||
  c = '\x1c' || c = '\x1d' || c = '\x1e' || c = '\x85' ||
  c = '\u2028' || c = '\u2029'

/-- The characters removed by Python `str.strip()` (ASCII whitespace, the
information-separator block, NEL, NBSP, and the LS/PS line separators; every
`splitlines` boundary character is also stripped, as in CPython). -/
def isPyWhitespace (c : Char) : Bool :=
  c = ' ' || c = '\t' || c = '\x1f' || c = '\xa0' || isPyLineBreak c

/-- Replace each two-character `"\r\n"` boundary by the single boundary
character `'\r'`, so that `splitSingle` can split on single characters exactly
as `str.splitlines` does. -/
def normCRLF : List Char → List Char
  | [] => []
  | [c] => [c]
  | c1 :: c2 :: cs =>
    if c1 = '\r' ∧ c2 = '\n' then '\r' :: normCRLF cs
    else c1 :: normCRLF (c2 :: cs)

/-- Split at every single line-boundary character; a trailing boundary yields
no final empty line (Python `"a\n".splitlines() == ["a"]`). `cur` holds the
current line, reversed. -/
def splitSingle (cur : List Char) : List Char → List (List Char)
  | [] => if cur = [] then [] else [cur.reverse]
  | c :: cs =>
    if isPyLineBreak c then cur.reverse :: splitSingle [] cs
    else splitSingle (c :: cur) cs

/-- Python `str.splitlines`. -/
def pySplitlines (cs : List Char) : List (List Char) :=
  splitSingle [] (normCRLF cs)

/-- Remove trailing characters satisfying `isPyWhitespace`. -/
def pyStripRight : List Char → List Char
  | [] => []
  | c :: cs =>
    let r := pyStripRight cs
    if r = [] && isPyWhitespace c then [] else c :: r

/-- Python `str.strip()`: drop leading and trailing whitespace. -/
def pyStrip (cs : List Char) : List Char :=
  pyStripRight (cs.dropWhile isPyWhitespace)

/-- Python `"\n".join`. -/
def joinNL : List (List Char) → List Char
  | [] => []
  | [l] => l
  | l :: ls => l ++ '\n' :: joinNL ls

/-- Whether the text contains two consecutive newline characters
(i.e. at least one blank line). -/
def hasNN : List Char → Bool
  | [] => false
  | [_] => false
  | c1 :: c2 :: cs => (c1 = '\n' && c2 = '\n') || hasNN (c2 :: cs)

/-- Emit a maximal newline run of length `n` as `re.sub(r'\n{3,}', '\n\n', ·)`
does: runs of three or more become exactly two. -/
def emitNL (n : Nat) : List Char :=
  if 3 ≤ n then ['\n', '\n'] else List.replicate n '\n'

/-- Scanner for `collapseNL`; `n` is the length of the pending newline run. -/
def collapseGo (n : Nat) : List Char → List Char
  | [] => emitNL n
  | c :: cs =>
    if c = '\n' then collapseGo (n + 1) cs
    else emitNL n ++ c :: collapseGo 0 cs

/-- Python `re.sub(r'\n{3,}', '\n\n', text)`. -/
def collapseNL (cs : List Char) : List Char :=
  collapseGo 0 cs

/-! ## Model of the `BeautifulSoup` text extraction

`html_to_text` builds `BeautifulSoup(html_content, 'html.parser')`, decomposes
`script`/`style` elements, replaces each `<br>` with a newline, appends a
newline to each `<p>` and `<div>` element, and calls `get_text()`.  We model
this as a single left-to-right scan: tag markup is consumed and dropped,
`script`/`style` content is skipped up to the matching close tag, `<br>`
emits a newline, `</p>` and `</div>` emit the appended newline, character
entity references in text are decoded (as `get_text` returns decoded text),
and all other characters are copied.  (Auto-closing of unclosed `<p>`/`<div>`
elements and entities without a trailing semicolon are not modelled; no claim
below depends on them.)
-/

/-- Read a run of ASCII letters (a tag name), lower-cased, returning the name
and the rest of the input. -/
def readName (acc : List Char) : List Char → List Char × List Char
  | [] => (acc.reverse, [])
  | c :: cs =>
    if c.isAlpha then readName (Char.toLower c :: acc) cs
    else (acc.reverse, c :: cs)

/-- Drop input up to and including the next `'>'`. -/
def skipToGT : List Char → List Char
  | [] => []
  | c :: cs => if c = '>' then cs else skipToGT cs

/-- Drop input up to and including the next `"-->"` (HTML comment end). -/
def skipComment : List Char → List Char
  | [] => []
  | c :: cs =>
    if ("-->".data).isPrefixOf (c :: cs) then (c :: cs).drop 3
    else skipComment cs

/-- Skip raw element content (`script`/`style`) up to and including the
matching close tag. -/
def skipRaw (tag : List Char) : List Char → List Char
  | [] => []
  | [_] => []
  | c1 :: c2 :: cs =>
    if c1 = '<' ∧ c2 = '/' then
      let p := readName [] cs
      if p.1 = tag then skipToGT p.2 else skipRaw tag cs
    else skipRaw tag (c2 :: cs)

/-- Leading decimal digits of the input, and the rest. -/
def takeDigits : List Char → List Char × List Char
  | [] => ([], [])
  | c :: cs =>
    if c.isDigit then
      let p := takeDigits cs
      (c :: p.1, p.2)
    else ([], c :: cs)

/-- Decimal value of a digit string. -/
def digitsToNat (ds : List Char) : Nat :=
  ds.foldl (fun n c => n * 10 + (c.toNat - 48)) 0

/-- Decode one character entity reference after a `'&'`: the basic named
entities and decimal numeric references. Returns the decoded character and
the remaining input, or `none` if no entity starts here. -/
def decodeEntity (cs : List Char) : Option (Char × List Char) :=
  if ("lt;".data).isPrefixOf cs then some ('<', cs.drop 3)
  else if ("gt;".data).isPrefixOf cs then some ('>', cs.drop 3)
  else if ("amp;".data).isPrefixOf cs then some ('&', cs.drop 4)
  else if ("quot;".data).isPrefixOf cs then some ('"', cs.drop 5)
  else if ("apos;".data).isPrefixOf cs then some (Char.ofNat 39, cs.drop 5)
  else if ("nbsp;".data).isPrefixOf cs then some ('\xa0', cs.drop 5)
  else
    match cs with
    | '#' :: cs2 =>
      let p := takeDigits cs2
      match p.2 with
      | ';' :: rest => if p.1 = [] then none else some (Char.ofNat (digitsToNat p.1), rest)
      | _ => none
    | _ => none

/-- The text-extraction scan. `fuel` bounds the number of steps; each step
consumes at least one input character, so `fuel = input length` suffices. -/
def extractGo : Nat → List Char → List Char
  | 0, _ => []
  | _, [] => []
  | fuel + 1, c :: cs =>
    if c = '<' then
      match cs with
      | '/' :: cs2 =>
        let p := readName [] cs2
        if p.1 = "p".data ∨ p.1 = "div".data then '\n' :: extractGo fuel (skipToGT p.2)
        else extractGo fuel (skipToGT p.2)
      | '!' :: cs2 =>
        if ("--".data).isPrefixOf cs2 then extractGo fuel (skipComment (cs2.drop 2))
        else extractGo fuel (skipToGT cs2)
      | [] => ['<']
      | d :: _ =>
        if d.isAlpha then
          let p := readName [] cs
          if p.1 = "script".data ∨ p.1 = "style".data then
            extractGo fuel (skipRaw p.1 (skipToGT p.2))
          else if p.1 = "br".data then '\n' :: extractGo fuel (skipToGT p.2)
          else extractGo fuel (skipToGT p.2)
        else '<' :: extractGo fuel cs
    else if c = '&' then
      match decodeEntity cs with
      | some (ch, rest) => ch :: extractGo fuel rest
      | none => '&' :: extractGo fuel cs
    else c :: extractGo fuel cs

/-- `get_text()` over the transformed soup (model of lines 21-40 of
`html_parser.py`). -/
def extractText (cs : List Char) : List Char :=
  extractGo cs.length cs

/-- The stripped lines kept by line 43-44 of `html_parser.py`:
`lines = [line.strip() for line in text.splitlines()]` followed by
`"\n".join(line for line in lines if line)`. -/
def keptLines (cs : List Char) : List (List Char) :=
  ((pySplitlines cs).map pyStrip).filter (fun l => !l.isEmpty)

/-- Lines 42-49 of `html_parser.py`: strip lines, drop empty lines, rejoin,
collapse newline runs, strip the whole result. -/
def cleanupText (cs : List Char) : List Char :=
  pyStrip (collapseNL (joinNL (keptLines cs)))

/-- `html_to_text` on character lists: empty input short-circuits
(`if not html_content: return ""`), otherwise extract text and clean it up. -/
def htmlCore (cs : List Char) : List Char :=
  if cs.isEmpty then [] else cleanupText (extractText cs)

/-- `html_to_text` from `src/utils/html_parser.py`. -/
def html_to_text (s : String) : String :=
  ⟨htmlCore s.data⟩

/-! ## Properties of the string pipeline -/

theorem cons_pre {a : Char} {l1 l2 : List Char} (h : l1 <+: l2) : a :: l1 <+: a :: l2 := by
  obtain ⟨t, ht⟩ := h
  exact ⟨t, by rw [List.cons_append, ht]⟩

theorem pyStripRight_pre : ∀ l : List Char, pyStripRight l <+: l
  | [] => List.prefix_rfl
  | c :: cs => by
    rw [pyStripRight]
    by_cases h : (pyStripRight cs = [] && isPyWhitespace c) = true
    · rw [if_pos h]
      exact List.nil_prefix
    · rw [if_neg h]
      exact cons_pre (pyStripRight_pre cs)

theorem mem_pyStrip {c : Char} {l : List Char} (h : c ∈ pyStrip l) : c ∈ l := by
  have h1 : c ∈ l.dropWhile isPyWhitespace :=
    (pyStripRight_pre _).sublist.mem h
  exact (List.dropWhile_suffix isPyWhitespace).sublist.mem h1

theorem dropWhile_headOk (p : Char → Bool) :
    ∀ l : List Char, ∀ c, (l.dropWhile p).head? = some c → p c = false
  | [], c => by simp
  | a :: l, c => by
    rw [List.dropWhile_cons]
    by_cases h : p a
    · simp only [h, if_true]
      exact dropWhile_headOk p l c
    · simp only [h]
      intro hc
      simp only [Bool.false_eq_true, if_false, List.head?_cons, Option.some.injEq] at hc
      subst hc
      simpa using h

theorem pyStripRight_head? :
    ∀ l : List Char, ∀ c, (pyStripRight l).head? = some c → l.head? = some c := by
  intro l c h
  rcases l with _ | ⟨a, l⟩
  · simp [pyStripRight] at h
  · rw [pyStripRight] at h
    by_cases hc : (pyStripRight l = [] && isPyWhitespace a) = true
    · rw [if_pos hc] at h
      simp at h
    · rw [if_neg hc] at h
      simp only [List.head?_cons] at h
      exact h

theorem pyStripRight_lastOk :
    ∀ l : List Char, ∀ c, (pyStripRight l).getLast? = some c → isPyWhitespace c = false
  | [], c => by simp [pyStripRight]
  | a :: l, c => by
    rw [pyStripRight]
    by_cases hc : (pyStripRight l = [] && isPyWhitespace a) = true
    · rw [if_pos hc]
      simp
    · rw [if_neg hc]
      rcases hr : pyStripRight l with _ | ⟨b, r⟩
      · intro hlast
        rw [List.getLast?_singleton, Option.some.injEq] at hlast
        rw [← hlast]
        rcases Bool.eq_false_or_eq_true (isPyWhitespace a) with hw | hw
        · exact absurd (by simp [hr, hw]) hc
        · exact hw
      · intro hlast
        rw [List.getLast?_cons_cons] at hlast
        exact pyStripRight_lastOk l c (by rw [hr]; exact hlast)

theorem pyStripRight_eq_self :
    ∀ l : List Char, (∀ c, l.getLast? = some c → isPyWhitespace c = false) →
      pyStripRight l = l
  | [], _ => rfl
  | a :: l, h => by
    rw [pyStripRight]
    rcases l with _ | ⟨b, l⟩
    · have ha := h a (by rw [List.getLast?_singleton])
      simp [pyStripRight, ha]
    · have hl : pyStripRight (b :: l) = b :: l :=
        pyStripRight_eq_self (b :: l) (fun c hc => h c (by rw [List.getLast?_cons_cons]; exact hc))
      simp [hl]

theorem dropWhile_eq_self (p : Char → Bool) (l : List Char)
    (h : ∀ c, l.head? = some c → p c = false) : l.dropWhile p = l := by
  rcases l with _ | ⟨a, l⟩
  · rfl
  · rw [List.dropWhile_cons, h a (by simp)]
    simp

theorem pyStrip_eq_self (l : List Char)
    (h1 : ∀ c, l.head? = some c → isPyWhitespace c = false)
    (h2 : ∀ c, l.getLast? = some c → isPyWhitespace c = false) : pyStrip l = l := by
  rw [pyStrip, dropWhile_eq_self _ _ h1, pyStripRight_eq_self _ h2]

theorem pyStrip_headOk (l : List Char) :
    ∀ c, (pyStrip l).head? = some c → isPyWhitespace c = false := by
  intro c h
  exact dropWhile_headOk _ l c (pyStripRight_head? _ c h)

theorem pyStrip_lastOk (l : List Char) :
    ∀ c, (pyStrip l).getLast? = some c → isPyWhitespace c = false :=
  pyStripRight_lastOk _

theorem pyStrip_idem (l : List Char) : pyStrip (pyStrip l) = pyStrip l :=
  pyStrip_eq_self _ (pyStrip_headOk l) (pyStrip_lastOk l)

theorem splitSingle_break :
    ∀ cs cur : List Char, (∀ c ∈ cur, isPyLineBreak c = false) →
      ∀ l ∈ splitSingle cur cs, ∀ c ∈ l, isPyLineBreak c = false
  | [], cur, hcur => by
    rw [splitSingle]
    by_cases h : cur = []
    · simp [h]
    · rw [if_neg h]
      intro l hl c hc
      rw [List.mem_singleton] at hl
      subst hl
      exact hcur c (List.mem_reverse.mp hc)
  | c0 :: cs, cur, hcur => by
    rw [splitSingle]
    by_cases h : isPyLineBreak c0
    · rw [if_pos h]
      intro l hl c hc
      rcases List.mem_cons.mp hl with hl | hl
      · subst hl
        exact hcur c (List.mem_reverse.mp hc)
      · exact splitSingle_break cs [] (by simp) l hl c hc
    · rw [if_neg h]
      intro l hl c hc
      refine splitSingle_break cs (c0 :: cur) ?_ l hl c hc
      intro d hd
      rcases List.mem_cons.mp hd with hd | hd
      · subst hd
        simpa using h
      · exact hcur d hd

theorem normCRLF_id :
    ∀ l : List Char, (∀ c ∈ l, c ≠ '\r') → normCRLF l = l
  | [], _ => rfl
  | [c], _ => rfl
  | c1 :: c2 :: cs, h => by
    rw [normCRLF]
    have h1 : c1 ≠ '\r' := h c1 (by simp)
    rw [if_neg (by intro hb; exact h1 hb.1)]
    rw [normCRLF_id (c2 :: cs) (fun c hc => h c (List.mem_cons_of_mem c1 hc))]

theorem splitSingle_append :
    ∀ l cur rest : List Char, (∀ c ∈ l, isPyLineBreak c = false) →
      splitSingle cur (l ++ rest) = splitSingle (l.reverse ++ cur) rest
  | [], cur, rest, _ => by simp
  | c :: l, cur, rest, h => by
    rw [List.cons_append, splitSingle, if_neg (by simp [h c (by simp)])]
    rw [splitSingle_append l (c :: cur) rest (fun d hd => h d (List.mem_cons_of_mem c hd))]
    simp

theorem mem_joinNL :
    ∀ ls : List (List Char), ∀ c ∈ joinNL ls, c = '\n' ∨ ∃ l ∈ ls, c ∈ l
  | [], c, hc => by simp [joinNL] at hc
  | [l], c, hc => by
    rw [joinNL] at hc
    exact Or.inr ⟨l, by simp, hc⟩
  | l :: l2 :: ls, c, hc => by
    have hj : joinNL (l :: l2 :: ls) = l ++ '\n' :: joinNL (l2 :: ls) := rfl
    rw [hj] at hc
    rcases List.mem_append.mp hc with hc | hc
    · exact Or.inr ⟨l, by simp, hc⟩
    · rcases List.mem_cons.mp hc with hc | hc
      · exact Or.inl hc
      · rcases mem_joinNL (l2 :: ls) c hc with hnl | ⟨l0, hl0, hcl0⟩
        · exact Or.inl hnl
        · exact Or.inr ⟨l0, List.mem_cons_of_mem l hl0, hcl0⟩

theorem splitSingle_joinNL :
    ∀ ls : List (List Char),
      (∀ l ∈ ls, l ≠ [] ∧ ∀ c ∈ l, isPyLineBreak c = false) →
      splitSingle [] (joinNL ls) = ls
  | [], _ => rfl
  | [l], h => by
    have hl := h l (by simp)
    rw [joinNL, ← List.append_nil l, splitSingle_append l [] [] hl.2, splitSingle]
    rw [if_neg (by simp [hl.1])]
    simp
  | l :: l2 :: ls, h => by
    have hl := h l (by simp)
    have hj : joinNL (l :: l2 :: ls) = l ++ '\n' :: joinNL (l2 :: ls) := rfl
    rw [hj, splitSingle_append l [] ('\n' :: joinNL (l2 :: ls)) hl.2, splitSingle]
    rw [if_pos (by rfl)]
    rw [splitSingle_joinNL (l2 :: ls) (fun l0 hl0 => h l0 (List.mem_cons_of_mem l hl0))]
    simp

theorem pySplitlines_joinNL
    (ls : List (List Char))
    (h : ∀ l ∈ ls, l ≠ [] ∧ ∀ c ∈ l, isPyLineBreak c = false) :
    pySplitlines (joinNL ls) = ls := by
  rw [pySplitlines, normCRLF_id, splitSingle_joinNL ls h]
  intro c hc
  rcases mem_joinNL ls c hc with hnl | ⟨l, hl, hcl⟩
  · subst hnl
    intro hcon
    exact absurd hcon (by decide)
  · intro hcon
    subst hcon
    have := (h l hl).2 _ hcl
    simp [isPyLineBreak] at this

theorem hasNN_cons {l : List Char} (c : Char) (h : hasNN l = true) : hasNN (c :: l) = true := by
  rcases l with _ | ⟨c2, cs⟩
  · simp [hasNN] at h
  · rw [hasNN, h]
    simp

theorem hasNN_append_right :
    ∀ m t : List Char, hasNN m = true → hasNN (m ++ t) = true
  | [], t, h => by simp [hasNN] at h
  | [c], t, h => by simp [hasNN] at h
  | c1 :: c2 :: cs, t, h => by
    rw [hasNN] at h
    rw [List.cons_append, List.cons_append, hasNN]
    cases hb : (decide (c1 = '\n') && decide (c2 = '\n'))
    · rw [hb, Bool.false_or] at h
      have h3 := hasNN_append_right (c2 :: cs) t h
      rw [List.cons_append] at h3
      rw [h3]
      simp
    · simp

theorem hasNN_append_left :
    ∀ s m : List Char, hasNN m = true → hasNN (s ++ m) = true
  | [], m, h => h
  | c :: s, m, h => by
    rw [List.cons_append]
    exact hasNN_cons c (hasNN_append_left s m h)

theorem hasNN_infix {l1 l2 : List Char} (hinf : l1 <:+: l2) (h : hasNN l2 = false) :
    hasNN l1 = false := by
  cases h1 : hasNN l1
  · rfl
  · obtain ⟨s, t, hst⟩ := hinf
    have h2 := hasNN_append_left s (l1 ++ t) (hasNN_append_right l1 t h1)
    rw [← List.append_assoc, hst, h] at h2
    exact h2.symm

theorem pyStrip_inf (l : List Char) : pyStrip l <:+: l :=
  List.IsInfix.trans (pyStripRight_pre _).isInfix
    (List.dropWhile_suffix isPyWhitespace).isInfix

theorem hasNN_noNL :
    ∀ l : List Char, '\n' ∉ l → hasNN l = false
  | [], _ => rfl
  | [_], _ => rfl
  | c1 :: c2 :: cs, h => by
    rw [hasNN]
    have h1 : c1 ≠ '\n' := fun hc => h (by rw [hc]; simp)
    have h2 := hasNN_noNL (c2 :: cs) (fun hc => h (List.mem_cons_of_mem c1 hc))
    rw [h2]
    simp [h1]

theorem hasNN_cons_of {c : Char} {l : List Char}
    (h : hasNN l = false) (hc : c = '\n' → l.head? ≠ some '\n') :
    hasNN (c :: l) = false := by
  rcases l with _ | ⟨c2, cs⟩
  · rfl
  · rw [hasNN, h, Bool.or_false]
    cases hd : decide (c = '\n')
    · simp
    · rw [decide_eq_true_eq] at hd
      have h2 := hc hd
      simp only [List.head?_cons, ne_eq, Option.some.injEq] at h2
      simp [h2]

theorem hasNN_append_mid :
    ∀ l rest : List Char, '\n' ∉ l → hasNN ('\n' :: rest) = false →
      hasNN (l ++ '\n' :: rest) = false
  | [], rest, _, h2 => h2
  | c :: l, rest, h1, h2 => by
    rw [List.cons_append]
    refine hasNN_cons_of (hasNN_append_mid l rest (fun hc => h1 (List.mem_cons_of_mem c hc)) h2) ?_
    intro hc
    exact absurd (by rw [hc]; simp) h1

theorem joinNL_head? :
    ∀ l : List Char, ∀ ls, l ≠ [] → (joinNL (l :: ls)).head? = l.head?
  | l, [], _ => rfl
  | l, l2 :: ls, hl => by
    have hj : joinNL (l :: l2 :: ls) = l ++ '\n' :: joinNL (l2 :: ls) := rfl
    rw [hj]
    rcases l with _ | ⟨c, l⟩
    · exact absurd rfl hl
    · simp

theorem joinNL_noNN :
    ∀ ls : List (List Char), (∀ l ∈ ls, l ≠ [] ∧ '\n' ∉ l) →
      hasNN (joinNL ls) = false
  | [], _ => rfl
  | [l], h => hasNN_noNL l (h l (by simp)).2
  | l :: l2 :: ls, h => by
    have hj : joinNL (l :: l2 :: ls) = l ++ '\n' :: joinNL (l2 :: ls) := rfl
    rw [hj]
    have hrest : hasNN (joinNL (l2 :: ls)) = false :=
      joinNL_noNN (l2 :: ls) (fun l0 hl0 => h l0 (List.mem_cons_of_mem l hl0))
    have hl2 := h l2 (by simp)
    refine hasNN_append_mid l _ (h l (by simp)).2 ?_
    refine hasNN_cons_of hrest ?_
    intro _
    rw [joinNL_head? l2 ls hl2.1]
    intro hhd
    rcases l2 with _ | ⟨c2, t2⟩
    · exact hl2.1 rfl
    · simp only [List.head?_cons, Option.some.injEq] at hhd
      exact hl2.2 (by rw [hhd]; simp)

theorem hasNN_tail {c : Char} {l : List Char} (h : hasNN (c :: l) = false) :
    hasNN l = false := by
  rcases l with _ | ⟨c2, cs⟩
  · rfl
  · rw [hasNN] at h
    exact (Bool.or_eq_false_iff.mp h).2

theorem collapse_id :
    ∀ l : List Char, hasNN l = false → collapseGo 0 l = l
  | [], _ => rfl
  | [c], _ => by
    rw [collapseGo]
    by_cases hc : c = '\n'
    · subst hc
      rw [if_pos rfl]
      simp [collapseGo, emitNL]
    · rw [if_neg hc]
      simp [collapseGo, emitNL]
  | c1 :: c2 :: cs, h => by
    rw [collapseGo]
    by_cases hc1 : c1 = '\n'
    · subst hc1
      rw [if_pos rfl]
      rw [hasNN] at h
      obtain ⟨hand, htail⟩ := Bool.or_eq_false_iff.mp h
      have hc2 : ¬ c2 = '\n' := by
        intro hc
        subst hc
        simp at hand
      rw [collapseGo, if_neg hc2, collapse_id cs (hasNN_tail htail)]
      simp [emitNL, List.replicate]
    · rw [if_neg hc1, collapse_id (c2 :: cs) (hasNN_tail h)]
      simp [emitNL]

theorem goodKept (x : List Char) :
    ∀ l ∈ keptLines x, l ≠ [] ∧ pyStrip l = l ∧ ∀ c ∈ l, isPyLineBreak c = false := by
  intro l hl
  rw [keptLines, List.mem_filter] at hl
  obtain ⟨hmem, hne⟩ := hl
  rw [List.mem_map] at hmem
  obtain ⟨l0, hl0, rfl⟩ := hmem
  rw [pySplitlines] at hl0
  refine ⟨?_, pyStrip_idem l0, ?_⟩
  · intro hcon
    rw [hcon] at hne
    simp at hne
  · intro c hc
    exact splitSingle_break (normCRLF x) [] (by simp) l0 hl0 c (mem_pyStrip hc)

theorem getLast?_cons_of_ne {a : Char} {r : List Char} (h : r ≠ []) :
    (a :: r).getLast? = r.getLast? := by
  rcases r with _ | ⟨b, r⟩
  · exact absurd rfl h
  · exact List.getLast?_cons_cons

theorem joinNL_ne_nil : ∀ (l : List Char) (ls), l ≠ [] → joinNL (l :: ls) ≠ []
  | l, [], hl => by rw [joinNL]; exact hl
  | l, l2 :: ls, _ => by
    have hj : joinNL (l :: l2 :: ls) = l ++ '\n' :: joinNL (l2 :: ls) := rfl
    rw [hj]
    simp

theorem joinNL_lastOk :
    ∀ ls : List (List Char), (∀ l ∈ ls, l ≠ [] ∧ pyStrip l = l) →
      ∀ c, (joinNL ls).getLast? = some c → isPyWhitespace c = false
  | [], _, c => by simp [joinNL]
  | [l], h, c => by
    rw [joinNL]
    intro hc
    have hl := h l (by simp)
    rw [← hl.2] at hc
    exact pyStrip_lastOk l c hc
  | l :: l2 :: ls, h, c => by
    have hj : joinNL (l :: l2 :: ls) = l ++ '\n' :: joinNL (l2 :: ls) := rfl
    rw [hj]
    intro hc
    rw [List.getLast?_append_of_ne_nil l (by simp)] at hc
    have hl2 := h l2 (by simp)
    rw [getLast?_cons_of_ne (joinNL_ne_nil l2 ls hl2.1)] at hc
    exact joinNL_lastOk (l2 :: ls) (fun l0 hl0 => h l0 (List.mem_cons_of_mem l hl0)) c hc

theorem joinNL_headOk (ls : List (List Char))
    (h : ∀ l ∈ ls, l ≠ [] ∧ pyStrip l = l) :
    ∀ c, (joinNL ls).head? = some c → isPyWhitespace c = false := by
  rcases ls with _ | ⟨l, ls⟩
  · simp [joinNL]
  · have hl := h l (by simp)
    rw [joinNL_head? l ls hl.1]
    intro c hc
    rw [← hl.2] at hc
    exact pyStrip_headOk l c hc

theorem joinNL_noNNb (ls : List (List Char))
    (h : ∀ l ∈ ls, l ≠ [] ∧ ∀ c ∈ l, isPyLineBreak c = false) :
    hasNN (joinNL ls) = false := by
  refine joinNL_noNN ls (fun l hl => ⟨(h l hl).1, fun hc => ?_⟩)
  have := (h l hl).2 _ hc
  simp [isPyLineBreak] at this

theorem keptLines_joinNL (ls : List (List Char))
    (h : ∀ l ∈ ls, l ≠ [] ∧ pyStrip l = l ∧ ∀ c ∈ l, isPyLineBreak c = false) :
    keptLines (joinNL ls) = ls := by
  rw [keptLines, pySplitlines_joinNL ls (fun l hl => ⟨(h l hl).1, (h l hl).2.2⟩)]
  have hmap : ls.map pyStrip = ls := by
    conv_rhs => rw [← List.map_id ls]
    exact List.map_congr_left (fun l hl => (h l hl).2.1)
  rw [hmap]
  rw [List.filter_eq_self.mpr]
  intro l hl
  simp [(h l hl).1]

theorem cleanupText_joinNL (ls : List (List Char))
    (h : ∀ l ∈ ls, l ≠ [] ∧ pyStrip l = l ∧ ∀ c ∈ l, isPyLineBreak c = false) :
    cleanupText (joinNL ls) = joinNL ls := by
  rw [cleanupText, keptLines_joinNL ls h, collapseNL,
    collapse_id _ (joinNL_noNNb ls (fun l hl => ⟨(h l hl).1, (h l hl).2.2⟩))]
  exact pyStrip_eq_self _
    (joinNL_headOk ls (fun l hl => ⟨(h l hl).1, (h l hl).2.1⟩))
    (joinNL_lastOk ls (fun l hl => ⟨(h l hl).1, (h l hl).2.1⟩))

theorem cleanupText_shape (x : List Char) :
    cleanupText x = [] ∨ cleanupText x = joinNL (keptLines x) := by
  rw [cleanupText, collapseNL,
    collapse_id _ (joinNL_noNNb (keptLines x) (fun l hl => ⟨(goodKept x l hl).1, (goodKept x l hl).2.2⟩))]
  rcases hk : keptLines x with _ | ⟨l, ls⟩
  · left
    simp [joinNL, pyStrip, pyStripRight]
  · right
    rw [← hk]
    exact pyStrip_eq_self _
      (joinNL_headOk _ (fun l0 hl0 => ⟨(goodKept x l0 hl0).1, (goodKept x l0 hl0).2.1⟩))
      (joinNL_lastOk _ (fun l0 hl0 => ⟨(goodKept x l0 hl0).1, (goodKept x l0 hl0).2.1⟩))

theorem cleanupText_stripped (x : List Char) :
    pyStrip (cleanupText x) = cleanupText x := by
  rw [cleanupText]
  exact pyStrip_idem _

theorem htmlCore_noNN (cs : List Char) : hasNN (htmlCore cs) = false := by
  rw [htmlCore]
  by_cases hcs : cs.isEmpty
  · rw [if_pos hcs]
    rfl
  · rw [if_neg hcs]
    rcases cleanupText_shape (extractText cs) with hsh | hsh
    · rw [hsh]
      rfl
    · rw [hsh]
      exact joinNL_noNNb _ (fun l hl => ⟨(goodKept _ l hl).1, (goodKept _ l hl).2.2⟩)

theorem htmlCore_stripped (cs : List Char) : pyStrip (htmlCore cs) = htmlCore cs := by
  rw [htmlCore]
  by_cases hcs : cs.isEmpty
  · rw [if_pos hcs]
    rfl
  · rw [if_neg hcs]
    exact cleanupText_stripped _

theorem extractGo_id :
    ∀ (fuel : Nat) (cs : List Char), cs.length ≤ fuel →
      (∀ c ∈ cs, c ≠ '<' ∧ c ≠ '&') → extractGo fuel cs = cs
  | 0, [], _, _ => rfl
  | fuel + 1, [], _, _ => rfl
  | 0, c :: cs, hlen, _ => by simp at hlen
  | fuel + 1, c :: cs, hlen, h => by
    simp only [extractGo]
    rw [if_neg (h c (by simp)).1, if_neg (h c (by simp)).2]
    rw [extractGo_id fuel cs (by simpa using Nat.succ_le_succ_iff.mp (by simpa using hlen))
      (fun d hd => h d (List.mem_cons_of_mem c hd))]

theorem extractText_id (cs : List Char) (h : ∀ c ∈ cs, c ≠ '<' ∧ c ≠ '&') :
    extractText cs = cs :=
  extractGo_id _ _ le_rfl h

theorem htmlCore_idem (cs : List Char)
    (h1 : '<' ∉ htmlCore cs) (h2 : '&' ∉ htmlCore cs) :
    htmlCore (htmlCore cs) = htmlCore cs := by
  by_cases hz : (htmlCore cs).isEmpty
  · have he : htmlCore cs = [] := List.isEmpty_iff.mp hz
    rw [he]
    rfl
  · have hcs : cs.isEmpty = false := by
      cases hc : cs.isEmpty
      · rfl
      · exfalso
        apply hz
        rw [htmlCore, if_pos hc]
        rfl
    have hform : htmlCore cs = cleanupText (extractText cs) := by
      rw [htmlCore, hcs]
      simp
    rw [htmlCore, if_neg hz, extractText_id _ (fun c hc => ⟨fun he => h1 (he ▸ hc), fun he => h2 (he ▸ hc)⟩)]
    rcases cleanupText_shape (extractText cs) with hsh | hsh
    · exfalso
      apply hz
      rw [hform, hsh]
      rfl
    · rw [hform, hsh]
      exact cleanupText_joinNL _ (goodKept _)

/-! ## Data model (src/models/email.py, src/models/folder.py)

Only the fields serialized by `LocalProvider._email_to_dict` are modelled
(`thread_id` and `raw_data` are not serialized); `_dict_to_email` and
`_email_to_dict` are mutually inverse on these fields, so one record type
stands for both the `Email` object and its stored dictionary.  Attachment
byte payloads are modelled as decoded strings.
-/

structure Attachment where
  filename : String
  content_type : String
  size : Nat
  data : Option String
  id : Option String
deriving DecidableEq

structure Rcd where
  id : String
  subject : String
  from_address : String
  to_addresses : List String
  cc_addresses : List String
  bcc_addresses : List String
  date : Nat
  body_text : String
  body_html : String
  attachments : List Attachment
  is_read : Bool
  is_starred : Bool
  folder : String
deriving DecidableEq

structure FolderM where
  name : String
  display_name : String
  unread_count : Nat
  total_count : Nat
  id : Option String
deriving DecidableEq

/-! ## `IMAPProvider._parse_email`, body extraction (lines 102-141)

The `email.message_from_bytes` MIME parse is modelled as an already
structured message: either a single part (content type and decoded payload)
or a multipart message given as the list of parts visited by `msg.walk()`
(the multipart container itself appears in that walk with a `None` payload).
Payload truthiness follows Python: `None` and the empty byte string are
falsy.
-/

structure MimePart where
  content_type : String
  content_disposition : String
  filename : Option String
  payload : Option String
deriving DecidableEq

inductive MimeBody where
  | single (content_type : String) (payload : Option String)
  | multi (parts : List MimePart)
deriving DecidableEq

def truthyStr : Option String → Bool
  | none => false
  | some s => !s.isEmpty

/-- Python `needle in hay` on strings. -/
def isInfixB (needle : List Char) : List Char → Bool
  | [] => needle.isEmpty
  | c :: cs => needle.isPrefixOf (c :: cs) || isInfixB needle cs

structure ParseAcc where
  body_text : String
  body_html : String
  attachments : List Attachment
deriving DecidableEq

/-- One iteration of the `msg.walk()` loop in `_parse_email`. -/
def parseStep (email_id : String) (acc : ParseAcc) (p : MimePart) : ParseAcc :=
  if isInfixB "attachment".data p.content_disposition.data then
    match p.filename with
    | some f =>
      if f = "" then acc
      else
        { acc with attachments := acc.attachments ++
            [{ filename := f, content_type := p.content_type,
               size := match p.payload with | some s => s.length | none => 0,
               data := p.payload,
               id := some (email_id ++ "_" ++ toString acc.attachments.length) }] }
    | none => acc
  else if p.content_type = "text/plain" then
    if truthyStr p.payload then { acc with body_text := p.payload.getD "" } else acc
  else if p.content_type = "text/html" then
    if truthyStr p.payload then { acc with body_html := p.payload.getD "" } else acc
  else acc

/-- Lines 102-137 of `imap_provider.py`: body and attachment extraction,
before the HTML fallback. -/
def parseBodyRaw (email_id : String) : MimeBody → ParseAcc
  | .multi parts => parts.foldl (parseStep email_id) ⟨"", "", []⟩
  | .single ct payload =>
    if truthyStr payload then
      if ct = "text/html" then ⟨"", payload.getD "", []⟩
      else ⟨payload.getD "", "", []⟩
    else ⟨"", "", []⟩

/-- Lines 102-141: extraction followed by
`if body_html and not body_text: body_text = html_to_text(body_html)`. -/
def parseBody (email_id : String) (m : MimeBody) : ParseAcc :=
  let acc := parseBodyRaw email_id m
  if acc.body_html ≠ "" ∧ acc.body_text = "" then
    { acc with body_text := html_to_text acc.body_html }
  else acc

/-! ## `LocalProvider` (src/providers/local_provider.py)

The provider state is `email_address`, the SMTP relay configuration, the
`connected` flag and the in-memory dict `self._emails`; Python dicts and the
JSON mailbox documents are insertion-ordered association lists.  The
filesystem (`storage_dir`) maps file names to mailbox documents; a file
exists iff its name is bound.  `uuid.uuid4()` is modelled by an id supply
`supply : Nat → String` consumed in call order (send uses `supply 0` for the
Sent copy and `supply k` for the k-th delivered local copy); its freshness
and injectivity, which real UUIDs provide, appear as hypotheses.  Disk
writes that can fail (`_save_emails`, whose `except IOError` swallows the
error and only prints) take a `diskOk` flag: `false` means the write raised
`IOError` and the file is unchanged.  The SMTP relay branch of `send_email`
(lines 229-280) touches only the network and the `self.smtp` session handle,
never a mailbox, and its failures are swallowed; it is therefore not part of
the mailbox state.  JSON reads are modelled as succeeding.
-/

/-- Python dict lookup. -/
def dlookup {α : Type} (k : String) : List (String × α) → Option α
  | [] => none
  | (k2, v) :: rest => if k2 = k then some v else dlookup k rest

/-- Python dict assignment `d[k] = v`: replace in place if the key exists,
else append. -/
def dinsert {α : Type} : List (String × α) → String → α → List (String × α)
  | [], k, v => [(k, v)]
  | (k2, v2) :: rest, k, v =>
    if k2 = k then (k, v) :: rest else (k2, v2) :: dinsert rest k v

/-- One mailbox document: message id → stored record. -/
abbrev Mailbox := List (String × Rcd)

/-- The storage directory: file name → mailbox document. -/
abbrev FileSys := List (String × Mailbox)

structure LP where
  email_address : String
  smtp_server : Option String
  smtp_username : Option String
  smtp_password : Option String
  connected : Bool
  emails : Mailbox
deriving DecidableEq

/-- `addr.replace('@', '_at_')`, the mailbox file name of an address. -/
def fnameCore : List Char → List Char
  | [] => []
  | c :: cs =>
    if c = '@' then '_' :: 'a' :: 't' :: '_' :: fnameCore cs
    else c :: fnameCore cs

def fname (addr : String) : String :=
  ⟨fnameCore addr.data⟩

/-- Date-descending comparison used by `emails.sort(key=lambda e: e.date, reverse=True)`. -/
def rdesc (a b : Rcd) : Prop := b.date ≤ a.date

instance : DecidableRel rdesc := fun a b => Nat.decLe b.date a.date

instance : IsTotal Rcd rdesc := ⟨fun a b => Nat.le_total b.date a.date⟩

instance : IsTrans Rcd rdesc := ⟨fun _ _ _ h1 h2 => Nat.le_trans h2 h1⟩

/-- Python stable sort, descending by date. -/
def sortDesc (es : List Rcd) : List Rcd := List.insertionSort rdesc es

/-- The `for email_dict in self._emails.values(): if <test>: append` loops. -/
def loopCollect (q : Rcd → Bool) (m : Mailbox) : List Rcd :=
  m.foldl (fun acc pr => if q pr.2 then acc ++ [pr.2] else acc) []

/-- `LocalProvider.fetch_emails` (lines 147-166): filter by folder, sort by
date descending, slice `[offset : offset + limit]`. -/
def fetch_emails (lp : LP) (folder : String) (limit offset : Nat) : List Rcd :=
  if !lp.connected then []
  else
    let emails := loopCollect (fun r => decide (r.folder = folder)) lp.emails
    ((sortDesc emails).drop offset).take limit

/-- `LocalProvider.get_email` (lines 168-176). -/
def get_email (lp : LP) (email_id : String) : Option Rcd :=
  if !lp.connected then none else dlookup email_id lp.emails

/-- `LocalProvider._save_emails` (lines 55-61): rewrite the provider's own
mailbox file from `self._emails`; an `IOError` (`diskOk = false`) is caught
and printed, leaving the file unchanged and raising nothing. -/
def save_emails (diskOk : Bool) (lp : LP) (fs : FileSys) : FileSys :=
  if diskOk then dinsert fs (fname lp.email_address) lp.emails else fs

/-- `LocalProvider.mark_read` (lines 350-359). -/
def mark_read (lp : LP) (fs : FileSys) (diskOk : Bool) (email_id : String) (read : Bool) :
    Bool × LP × FileSys :=
  if !lp.connected then (false, lp, fs)
  else
    match dlookup email_id lp.emails with
    | some r =>
      let lp2 := { lp with emails := dinsert lp.emails email_id { r with is_read := read } }
      (true, lp2, save_emails diskOk lp2 fs)
    | none => (false, lp, fs)

/-- `LocalProvider.delete_email` (lines 361-370): soft delete, reassigning
the record's folder to "Trash". -/
def delete_email (lp : LP) (fs : FileSys) (diskOk : Bool) (email_id : String) :
    Bool × LP × FileSys :=
  if !lp.connected then (false, lp, fs)
  else
    match dlookup email_id lp.emails with
    | some r =>
      let lp2 := { lp with emails := dinsert lp.emails email_id { r with folder := "Trash" } }
      (true, lp2, save_emails diskOk lp2 fs)
    | none => (false, lp, fs)

/-- Lower-cased character list of a string (`s.lower()`; ASCII case folding). -/
def lowerL (s : String) : List Char := s.data.map Char.toLower

/-- The match test of `search_emails`: case-insensitive substring of
subject, body text, or from address. -/
def matchesQ (q : String) (r : Rcd) : Bool :=
  isInfixB (lowerL q) (lowerL r.subject) ||
  isInfixB (lowerL q) (lowerL r.body_text) ||
  isInfixB (lowerL q) (lowerL r.from_address)

/-- The folder scope of `search_emails`: `if folder and
email_dict.get("folder") != folder: continue` (a `None` or empty folder
argument disables the filter). -/
def scopeOk (folder : Option String) (r : Rcd) : Bool :=
  match folder with
  | none => true
  | some f => if f = "" then true else decide (r.folder = f)

/-- `LocalProvider.search_emails` (lines 372-398). -/
def search_emails (lp : LP) (q : String) (folder : Option String) (limit : Nat) : List Rcd :=
  if !lp.connected then []
  else
    let results := loopCollect (fun r => scopeOk folder r && matchesQ q r) lp.emails
    (sortDesc results).take limit

abbrev Counts := List (String × (Nat × Nat))

/-- One iteration of the counting loop of `get_folders` (lines 316-322);
the pair is (total, unread). -/
def countStep (acc : Counts) (r : Rcd) : Counts :=
  let u : Nat := if r.is_read then 0 else 1
  match dlookup r.folder acc with
  | some tu => dinsert acc r.folder (tu.1 + 1, tu.2 + u)
  | none => acc ++ [(r.folder, (1, u))]

def folderCounts (rs : List Rcd) : Counts := rs.foldl countStep []

def getTotal (cs : Counts) (n : String) : Nat := ((dlookup n cs).getD (0, 0)).1

def getUnread (cs : Counts) (n : String) : Nat := ((dlookup n cs).getD (0, 0)).2

def defaultFolders : List String := ["INBOX", "Sent", "Drafts", "Trash"]

/-- `LocalProvider.get_folders` (lines 311-348): the four default folders
(with counts defaulting to zero), then every other folder name found, in
first-appearance order. -/
def get_folders (lp : LP) : List FolderM :=
  let cs := folderCounts (lp.emails.map Prod.snd)
  defaultFolders.map (fun n => ⟨n, n, getUnread cs n, getTotal cs n, some n⟩) ++
  ((cs.map Prod.fst).filter (fun n => decide (n ∉ defaultFolders))).map
    (fun n => ⟨n, n, getUnread cs n, getTotal cs n, some n⟩)

/-- The `Email` object built by `send_email` (lines 199-216): fresh id,
from = own address, folder = "Sent", unread. -/
def sentRecord (lp : LP) (supply : Nat → String) (to_addresses : List String)
    (subject body : String) (html_body : Option String)
    (cc bcc : Option (List String)) (atts : Option (List Attachment)) (now : Nat) : Rcd :=
  { id := supply 0, subject := subject, from_address := lp.email_address,
    to_addresses := to_addresses, cc_addresses := cc.getD [], bcc_addresses := bcc.getD [],
    date := now, body_text := body, body_html := html_body.getD "",
    attachments := atts.getD [], is_read := false, is_starred := false, folder := "Sent" }

/-- The local-delivery loop of `send_email` (lines 286-303): for each local
recipient whose file still exists, read their document, append a clone with
a fresh id (`supply k`) and folder "INBOX", and write the document back. -/
def deliverLoop (supply : Nat → String) (base : Rcd) :
    FileSys → List String → Nat → FileSys
  | fs, [], _ => fs
  | fs, addr :: rest, k =>
    match dlookup (fname addr) fs with
    | some doc =>
      deliverLoop supply base
        (dinsert fs (fname addr)
          (dinsert doc (supply k) { base with id := supply k, folder := "INBOX" }))
        rest (k + 1)
    | none => deliverLoop supply base fs rest k

/-- `LocalProvider.send_email` (lines 183-309): build the Sent record,
partition recipients by `_is_local_address` (file exists), store the Sent
copy in `self._emails`, deliver INBOX clones to local recipients, then
`_save_emails`.  The SMTP relay branch affects no mailbox state (see the
section comment). -/
def send_email (lp : LP) (fs : FileSys) (diskOk : Bool) (supply : Nat → String)
    (to_addresses : List String) (subject body : String) (html_body : Option String)
    (cc bcc : Option (List String)) (atts : Option (List Attachment)) (now : Nat) :
    Bool × LP × FileSys :=
  if !lp.connected then (false, lp, fs)
  else
    let email_obj := sentRecord lp supply to_addresses subject body html_body cc bcc atts now
    let local_recipients := to_addresses.filter (fun a => (dlookup (fname a) fs).isSome)
    let lp2 := { lp with emails := dinsert lp.emails (supply 0) email_obj }
    let fs2 := deliverLoop supply email_obj fs local_recipients 1
    (true, lp2, save_emails diskOk lp2 fs2)

/-! ## Dictionary lemmas -/

theorem dlookup_dinsert {α : Type} (m : List (String × α)) (k k2 : String) (v : α) :
    dlookup k2 (dinsert m k v) = if k = k2 then some v else dlookup k2 m := by
  induction m with
  | nil => simp [dinsert, dlookup]
  | cons p rest ih =>
    obtain ⟨a, b⟩ := p
    rw [dinsert]
    by_cases hak : a = k
    · subst hak
      rw [if_pos rfl, dlookup, dlookup]
      by_cases hk2 : a = k2
      · rw [if_pos hk2, if_pos hk2]
      · rw [if_neg hk2, if_neg hk2, if_neg hk2]
    · rw [if_neg hak, dlookup, dlookup]
      by_cases hk2 : a = k2
      · have hkk2 : ¬ k = k2 := fun h => hak (hk2.trans h.symm)
        rw [if_pos hk2, if_neg hkk2, if_pos hk2]
      · rw [if_neg hk2, if_neg hk2, ih]

theorem dinsert_append {α : Type} {m : List (String × α)} {k : String} (v : α)
    (h : dlookup k m = none) : dinsert m k v = m ++ [(k, v)] := by
  induction m with
  | nil => rfl
  | cons p rest ih =>
    obtain ⟨a, b⟩ := p
    rw [dlookup] at h
    by_cases hak : a = k
    · rw [if_pos hak] at h
      exact absurd h (by simp)
    · rw [if_neg hak] at h
      rw [dinsert, if_neg hak, ih h, List.cons_append]

theorem dinsert_length {α : Type} {m : List (String × α)} {k : String} (v : α)
    (h : (dlookup k m).isSome = true) : (dinsert m k v).length = m.length := by
  induction m with
  | nil => simp [dlookup] at h
  | cons p rest ih =>
    obtain ⟨a, b⟩ := p
    rw [dlookup] at h
    by_cases hak : a = k
    · rw [dinsert, if_pos hak]
      simp
    · rw [if_neg hak] at h
      rw [dinsert, if_neg hak, List.length_cons, List.length_cons, ih h]

theorem dlookup_none_iff {α : Type} (m : List (String × α)) (k : String) :
    dlookup k m = none ↔ k ∉ m.map Prod.fst := by
  induction m with
  | nil => simp [dlookup]
  | cons p rest ih =>
    obtain ⟨a, b⟩ := p
    rw [dlookup]
    by_cases hak : a = k
    · subst hak
      simp
    · rw [if_neg hak]
      simp only [List.map_cons, List.mem_cons]
      rw [ih]
      constructor
      · intro h hc
        rcases hc with hc | hc
        · exact hak hc.symm
        · exact h hc
      · intro h
        exact fun hc => h (Or.inr hc)

theorem dinsert_keys {α : Type} (m : List (String × α)) (k k2 : String) (v : α) :
    k2 ∈ (dinsert m k v).map Prod.fst ↔ k2 ∈ m.map Prod.fst ∨ k2 = k := by
  induction m with
  | nil => simp [dinsert]
  | cons p rest ih =>
    obtain ⟨a, b⟩ := p
    rw [dinsert]
    by_cases hak : a = k
    · subst hak
      rw [if_pos rfl]
      simp only [List.map_cons, List.mem_cons]
      tauto
    · rw [if_neg hak]
      simp only [List.map_cons, List.mem_cons]
      rw [ih]
      tauto

/-! ## Loop and match lemmas -/

theorem loopCollect_aux (q : Rcd → Bool) :
    ∀ (m : Mailbox) (acc : List Rcd),
      m.foldl (fun acc pr => if q pr.2 then acc ++ [pr.2] else acc) acc =
        acc ++ (m.map Prod.snd).filter q
  | [], acc => by simp
  | p :: m, acc => by
    rw [List.foldl_cons, loopCollect_aux q m]
    by_cases h : q p.2
    · rw [if_pos h]
      simp [List.filter_cons, h]
    · rw [if_neg h]
      simp [List.filter_cons, h]

theorem loopCollect_eq (q : Rcd → Bool) (m : Mailbox) :
    loopCollect q m = (m.map Prod.snd).filter q := by
  rw [loopCollect, loopCollect_aux]
  simp

theorem isInfixB_iff : ∀ n h : List Char, isInfixB n h = true ↔ n <:+: h
  | n, [] => by
    rw [isInfixB]
    simp [List.infix_nil, List.isEmpty_iff]
  | n, c :: cs => by
    rw [isInfixB, List.infix_cons_iff, Bool.or_eq_true, isInfixB_iff n cs,
      List.isPrefixOf_iff_prefix]

/-- The matching criterion exactly as the spec words it: the query is a
case-insensitive substring of the subject, the body text, or the from
address. -/
def specMatches (q : String) (r : Rcd) : Prop :=
  lowerL q <:+: lowerL r.subject ∨ lowerL q <:+: lowerL r.body_text ∨
    lowerL q <:+: lowerL r.from_address

theorem matchesQ_iff (q : String) (r : Rcd) : matchesQ q r = true ↔ specMatches q r := by
  rw [matchesQ, specMatches, Bool.or_eq_true, Bool.or_eq_true, isInfixB_iff,
    isInfixB_iff, isInfixB_iff]
  tauto

theorem lowerL_nil {q : String} (h : lowerL q = []) : q = "" := by
  rw [lowerL, List.map_eq_nil_iff] at h
  have : q = String.mk q.data := rfl
  rw [this, h]

/-! ## Concrete states used by witnesses -/

def rA : Rcd := ⟨"m1", "Hello", "bob@local", ["a@l"], [], [], 7, "greetings", "", [], false, false, "INBOX"⟩

def rB : Rcd := ⟨"m2", "Report", "carol@local", ["a@l"], [], [], 9, "the report", "", [], true, false, "INBOX"⟩

def rC : Rcd := ⟨"m3", "Draft", "a@l", [], [], [], 3, "", "<b>hi</b>", [], false, false, "Drafts"⟩

def lpW : LP := ⟨"a@l", none, none, none, true, [("m1", rA), ("m2", rB), ("m3", rC)]⟩

/-! ## Claim theorems: the local store -/

/-- C2: on a connected provider whose store contains the message, `delete_email`
returns true, reassigns that record's folder to "Trash", keeps the record
count unchanged, and leaves every other record (and every other field of the
deleted record) unchanged. -/
theorem claim_C2_delete_soft (lp : LP) (fs : FileSys) (email_id : String) (r : Rcd)
    (hconn : lp.connected = true) (hmem : dlookup email_id lp.emails = some r) :
    (delete_email lp fs true email_id).1 = true ∧
    (delete_email lp fs true email_id).2.1.emails.length = lp.emails.length ∧
    dlookup email_id (delete_email lp fs true email_id).2.1.emails =
      some { r with folder := "Trash" } ∧
    ∀ k, k ≠ email_id →
      dlookup k (delete_email lp fs true email_id).2.1.emails = dlookup k lp.emails := by
  have hres : delete_email lp fs true email_id =
      (true, { lp with emails := dinsert lp.emails email_id { r with folder := "Trash" } },
        save_emails true
          { lp with emails := dinsert lp.emails email_id { r with folder := "Trash" } } fs) := by
    rw [delete_email, hconn, hmem]
    rfl
  rw [hres]
  refine ⟨rfl, dinsert_length _ (by rw [hmem]; rfl), ?_, ?_⟩
  · rw [dlookup_dinsert, if_pos rfl]
  · intro k hk
    rw [dlookup_dinsert, if_neg (fun h => hk h.symm)]

theorem claim_C2_witness :
    lpW.connected = true ∧ dlookup "m1" lpW.emails = some rA ∧
    ((delete_email lpW [] true "m1").1 = true ∧
    (delete_email lpW [] true "m1").2.1.emails.length = lpW.emails.length ∧
    dlookup "m1" (delete_email lpW [] true "m1").2.1.emails =
      some { rA with folder := "Trash" } ∧
    ∀ k, k ≠ "m1" →
      dlookup k (delete_email lpW [] true "m1").2.1.emails = dlookup k lpW.emails) :=
  ⟨rfl, by decide, claim_C2_delete_soft lpW [] "m1" rA rfl (by decide)⟩

/-- C10: on a connected provider, `mark_read` and `delete_email` on an id
that is not a key of the store return false and leave the provider state and
the filesystem untouched (no persistence write happens). -/
theorem claim_C10_missing_id (lp : LP) (fs : FileSys) (diskOk : Bool)
    (email_id : String) (read : Bool)
    (hconn : lp.connected = true) (hmiss : dlookup email_id lp.emails = none) :
    mark_read lp fs diskOk email_id read = (false, lp, fs) ∧
    delete_email lp fs diskOk email_id = (false, lp, fs) := by
  constructor
  · rw [mark_read, hconn, hmiss]
    rfl
  · rw [delete_email, hconn, hmiss]
    rfl

theorem claim_C10_witness :
    lpW.connected = true ∧ dlookup "zz" lpW.emails = none ∧
    (mark_read lpW [] true "zz" true = (false, lpW, []) ∧
     delete_email lpW [] true "zz" = (false, lpW, [])) :=
  ⟨rfl, by decide, claim_C10_missing_id lpW [] true "zz" true rfl (by decide)⟩

/-- C3: a failing disk write in `_save_emails` is swallowed: with the write
raising `IOError` (`diskOk = false`), `delete_email`, `mark_read` and
`send_email` still report success and the on-disk document is unchanged —
the error does not propagate to the caller, contradicting the spec's
requirement that persistence failures must propagate. -/
theorem claim_C3_swallowed :
    delete_email lpW [("a_at_l", lpW.emails)] false "m1" =
      (true, { lpW with emails := dinsert lpW.emails "m1" { rA with folder := "Trash" } },
        [("a_at_l", lpW.emails)]) ∧
    mark_read lpW [("a_at_l", lpW.emails)] false "m1" true =
      (true, { lpW with emails := dinsert lpW.emails "m1" { rA with is_read := true } },
        [("a_at_l", lpW.emails)]) ∧
    (send_email lpW [("a_at_l", lpW.emails)] false (fun n => "u" ++ toString n)
        ["x@remote"] "s" "b" none none none none 11).1 = true ∧
    (send_email lpW [("a_at_l", lpW.emails)] false (fun n => "u" ++ toString n)
        ["x@remote"] "s" "b" none none none none 11).2.2 =
      [("a_at_l", lpW.emails)] := by
  refine ⟨by decide, by decide, by decide, by decide⟩

/-- C5: on a connected provider, `fetch_emails folder limit offset` equals
the slice `[offset : offset + limit]` of the folder-filtered store sorted by
date descending; that sorted list is ordered by `rdesc` (timestamp
descending) and is a permutation of the folder-filtered store. -/
theorem claim_C5_fetch_slice (lp : LP) (folder : String) (limit offset : Nat)
    (hconn : lp.connected = true) :
    fetch_emails lp folder limit offset =
      ((sortDesc ((lp.emails.map Prod.snd).filter
        (fun r => decide (r.folder = folder)))).drop offset).take limit ∧
    List.Sorted rdesc (sortDesc ((lp.emails.map Prod.snd).filter
      (fun r => decide (r.folder = folder)))) ∧
    (sortDesc ((lp.emails.map Prod.snd).filter
      (fun r => decide (r.folder = folder)))).Perm
      ((lp.emails.map Prod.snd).filter (fun r => decide (r.folder = folder))) := by
  refine ⟨?_, List.sorted_insertionSort rdesc _, List.perm_insertionSort rdesc _⟩
  rw [fetch_emails, hconn]
  show ((sortDesc (loopCollect (fun r => decide (r.folder = folder)) lp.emails)).drop
    offset).take limit = _
  rw [loopCollect_eq]

theorem claim_C5_witness :
    lpW.connected = true ∧
    (fetch_emails lpW "INBOX" 1 1 =
      ((sortDesc ((lpW.emails.map Prod.snd).filter
        (fun r => decide (r.folder = "INBOX")))).drop 1).take 1 ∧
    List.Sorted rdesc (sortDesc ((lpW.emails.map Prod.snd).filter
      (fun r => decide (r.folder = "INBOX")))) ∧
    (sortDesc ((lpW.emails.map Prod.snd).filter
      (fun r => decide (r.folder = "INBOX")))).Perm
      ((lpW.emails.map Prod.snd).filter (fun r => decide (r.folder = "INBOX")))) :=
  ⟨rfl, claim_C5_fetch_slice lpW "INBOX" 1 1 rfl⟩

/-- C6: on a connected provider, `search_emails` returns exactly the stored
messages passing the folder scope and the match test, sorted by timestamp
descending and capped at `limit`; the match test is precisely the spec's
case-insensitive substring test over subject, body text and from address
only, so a message whose query occurs only in `body_html` (with empty body
text) is never returned. -/
theorem claim_C6_search (lp : LP) (q : String) (folder : Option String) (limit : Nat)
    (hconn : lp.connected = true) :
    search_emails lp q folder limit =
      (sortDesc ((lp.emails.map Prod.snd).filter
        (fun r => scopeOk folder r && matchesQ q r))).take limit ∧
    (∀ r : Rcd, matchesQ q r = true ↔ specMatches q r) ∧
    List.Sorted rdesc (sortDesc ((lp.emails.map Prod.snd).filter
      (fun r => scopeOk folder r && matchesQ q r))) ∧
    (sortDesc ((lp.emails.map Prod.snd).filter
      (fun r => scopeOk folder r && matchesQ q r))).Perm
      ((lp.emails.map Prod.snd).filter (fun r => scopeOk folder r && matchesQ q r)) ∧
    (∀ r : Rcd, r ∈ lp.emails.map Prod.snd → q ≠ "" →
      ¬ (lowerL q <:+: lowerL r.subject) → ¬ (lowerL q <:+: lowerL r.from_address) →
      r.body_text = "" → r ∉ search_emails lp q folder limit) := by
  have heq : search_emails lp q folder limit =
      (sortDesc ((lp.emails.map Prod.snd).filter
        (fun r => scopeOk folder r && matchesQ q r))).take limit := by
    rw [search_emails, hconn]
    show (sortDesc (loopCollect (fun r => scopeOk folder r && matchesQ q r) lp.emails)).take
      limit = _
    rw [loopCollect_eq]
  refine ⟨heq, matchesQ_iff q, List.sorted_insertionSort rdesc _,
    List.perm_insertionSort rdesc _, ?_⟩
  intro r _ hq hs hf hb hmem
  rw [heq] at hmem
  have hmem2 : r ∈ sortDesc ((lp.emails.map Prod.snd).filter
      (fun r => scopeOk folder r && matchesQ q r)) := List.mem_of_mem_take hmem
  have hmem3 : r ∈ (lp.emails.map Prod.snd).filter
      (fun r => scopeOk folder r && matchesQ q r) :=
    (List.perm_insertionSort rdesc _).mem_iff.mp hmem2
  have hmatch : matchesQ q r = true := by
    have h2 := (List.mem_filter.mp hmem3).2
    simp only [Bool.and_eq_true] at h2
    exact h2.2
  rcases (matchesQ_iff q r).mp hmatch with hcase | hcase | hcase
  · exact hs hcase
  · rw [hb] at hcase
    have hnil : lowerL q = [] := by
      have : lowerL "" = [] := rfl
      rw [this] at hcase
      exact List.infix_nil.mp hcase
    exact hq (lowerL_nil hnil)
  · exact hf hcase

theorem claim_C6_witness :
    lpW.connected = true ∧
    ((∀ r : Rcd, matchesQ "hi" r = true ↔ specMatches "hi" r) ∧
    (∀ r : Rcd, r ∈ lpW.emails.map Prod.snd → "hi" ≠ "" →
      ¬ (lowerL "hi" <:+: lowerL r.subject) → ¬ (lowerL "hi" <:+: lowerL r.from_address) →
      r.body_text = "" → r ∉ search_emails lpW "hi" none 50)) ∧
    search_emails lpW "hi" none 50 = [] :=
  ⟨rfl, ⟨(claim_C6_search lpW "hi" none 50 rfl).2.1,
    (claim_C6_search lpW "hi" none 50 rfl).2.2.2.2⟩, by decide⟩

/-! ## Folder-count lemmas -/

theorem dlookup_append_of_none {α : Type} {m : List (String × α)} {n : String}
    (k : String) (v : α) (h : dlookup n m = none) :
    dlookup n (m ++ [(k, v)]) = if k = n then some v else none := by
  induction m with
  | nil => simp [dlookup]
  | cons p rest ih =>
    obtain ⟨a, b⟩ := p
    rw [dlookup] at h
    by_cases han : a = n
    · rw [if_pos han] at h
      exact absurd h (by simp)
    · rw [if_neg han] at h
      rw [List.cons_append, dlookup, if_neg han, ih h]

theorem dlookup_append_of_some {α : Type} {m : List (String × α)} {n : String} {w : α}
    (l : List (String × α)) (h : dlookup n m = some w) :
    dlookup n (m ++ l) = some w := by
  induction m with
  | nil => simp [dlookup] at h
  | cons p rest ih =>
    obtain ⟨a, b⟩ := p
    rw [dlookup] at h
    rw [List.cons_append, dlookup]
    by_cases han : a = n
    · rw [if_pos han] at h
      rw [if_pos han, h]
    · rw [if_neg han] at h
      rw [if_neg han, ih h]

theorem dlookup_countStep (acc : Counts) (r : Rcd) (n : String) :
    dlookup n (countStep acc r) =
      if r.folder = n then
        some (getTotal acc n + 1, getUnread acc n + (if r.is_read then 0 else 1))
      else dlookup n acc := by
  rw [countStep]
  cases htu : dlookup r.folder acc with
  | some tu =>
    show dlookup n (dinsert acc r.folder (tu.1 + 1, tu.2 + _)) = _
    rw [dlookup_dinsert]
    by_cases hn : r.folder = n
    · rw [if_pos hn, if_pos hn, getTotal, getUnread, ← hn, htu]
      rfl
    · rw [if_neg hn, if_neg hn]
  | none =>
    show dlookup n (acc ++ [(r.folder, (1, _))]) = _
    by_cases hn : r.folder = n
    · rw [if_pos hn]
      rw [dlookup_append_of_none _ _ (hn ▸ htu), if_pos hn, getTotal, getUnread, ← hn, htu]
      simp
    · rw [if_neg hn]
      cases hw : dlookup n acc with
      | some w => rw [dlookup_append_of_some _ hw]
      | none => rw [dlookup_append_of_none _ _ hw, if_neg hn]

theorem getTotal_countStep (acc : Counts) (r : Rcd) (n : String) :
    getTotal (countStep acc r) n =
      if r.folder = n then getTotal acc n + 1 else getTotal acc n := by
  rw [getTotal, dlookup_countStep]
  by_cases hn : r.folder = n
  · rw [if_pos hn, if_pos hn]
    rfl
  · rw [if_neg hn, if_neg hn, getTotal]

theorem getUnread_countStep (acc : Counts) (r : Rcd) (n : String) :
    getUnread (countStep acc r) n =
      if r.folder = n then getUnread acc n + (if r.is_read then 0 else 1)
      else getUnread acc n := by
  rw [getUnread, dlookup_countStep]
  by_cases hn : r.folder = n
  · rw [if_pos hn, if_pos hn]
    rfl
  · rw [if_neg hn, if_neg hn, getUnread]

theorem folderCounts_total_aux :
    ∀ (rs : List Rcd) (acc : Counts) (n : String),
      getTotal (rs.foldl countStep acc) n =
        getTotal acc n + (rs.filter (fun r => decide (r.folder = n))).length
  | [], acc, n => by simp
  | r :: rs, acc, n => by
    rw [List.foldl_cons, folderCounts_total_aux rs (countStep acc r) n,
      getTotal_countStep, List.filter_cons]
    by_cases hn : r.folder = n
    · rw [if_pos hn, if_pos (by simpa using hn)]
      simp only [List.length_cons]
      omega
    · rw [if_neg hn, if_neg (by simpa using hn)]

theorem folderCounts_unread_aux :
    ∀ (rs : List Rcd) (acc : Counts) (n : String),
      getUnread (rs.foldl countStep acc) n =
        getUnread acc n + (rs.filter (fun r => decide (r.folder = n) && !r.is_read)).length
  | [], acc, n => by simp
  | r :: rs, acc, n => by
    rw [List.foldl_cons, folderCounts_unread_aux rs (countStep acc r) n,
      getUnread_countStep, List.filter_cons]
    by_cases hn : r.folder = n
    · cases hr : r.is_read
      · rw [if_pos hn]
        simp [hn]
        omega
      · rw [if_pos hn]
        simp only [Bool.not_true, Bool.and_false, Bool.false_eq_true, if_false, if_true]
        omega
    · rw [if_neg hn]
      simp [hn]

theorem countStep_keys (acc : Counts) (r : Rcd) (n : String) :
    n ∈ (countStep acc r).map Prod.fst ↔ n ∈ acc.map Prod.fst ∨ r.folder = n := by
  rw [countStep]
  cases htu : dlookup r.folder acc with
  | some tu =>
    show n ∈ (dinsert acc r.folder (tu.1 + 1, tu.2 + _)).map Prod.fst ↔ _
    rw [dinsert_keys]
    constructor
    · intro h
      rcases h with h | h
      · exact Or.inl h
      · exact Or.inr h.symm
    · intro h
      rcases h with h | h
      · exact Or.inl h
      · exact Or.inr h.symm
  | none =>
    show n ∈ (acc ++ [(r.folder, (1, _))]).map Prod.fst ↔ _
    rw [List.map_append, List.mem_append]
    simp only [List.map_cons, List.map_nil, List.mem_singleton]
    constructor
    · intro h
      rcases h with h | h
      · exact Or.inl h
      · exact Or.inr h.symm
    · intro h
      rcases h with h | h
      · exact Or.inl h
      · exact Or.inr h.symm

theorem folderCounts_keys_aux :
    ∀ (rs : List Rcd) (acc : Counts) (n : String),
      n ∈ (rs.foldl countStep acc).map Prod.fst ↔
        n ∈ acc.map Prod.fst ∨ ∃ r ∈ rs, r.folder = n
  | [], acc, n => by simp
  | r :: rs, acc, n => by
    rw [List.foldl_cons, folderCounts_keys_aux rs (countStep acc r) n, countStep_keys]
    constructor
    · intro h
      rcases h with (h | h) | h
      · exact Or.inl h
      · exact Or.inr ⟨r, by simp, h⟩
      · obtain ⟨r0, hr0, he⟩ := h
        exact Or.inr ⟨r0, List.mem_cons_of_mem r hr0, he⟩
    · intro h
      rcases h with h | h
      · exact Or.inl (Or.inl h)
      · obtain ⟨r0, hr0, he⟩ := h
        rcases List.mem_cons.mp hr0 with hr0 | hr0
        · subst hr0
          exact Or.inl (Or.inr he)
        · exact Or.inr ⟨r0, hr0, he⟩

/-- C4: `get_folders` (on any provider state) returns folders whose names
are exactly the four canonical names plus every folder name present in
stored records; every returned folder's total count equals the number of
stored messages with that folder name and its unread count equals the
number of those that are unread; on an empty store the result is exactly
INBOX/Sent/Drafts/Trash with zero counts. -/
theorem claim_C4_folders (lp : LP) :
    (∀ f ∈ get_folders lp,
       f.total_count =
         ((lp.emails.map Prod.snd).filter (fun r => decide (r.folder = f.name))).length ∧
       f.unread_count =
         ((lp.emails.map Prod.snd).filter
           (fun r => decide (r.folder = f.name) && !r.is_read)).length) ∧
    (∀ n : String, n ∈ (get_folders lp).map FolderM.name ↔
       n ∈ defaultFolders ∨ ∃ r ∈ lp.emails.map Prod.snd, r.folder = n) ∧
    (lp.emails = [] → get_folders lp =
       [⟨"INBOX", "INBOX", 0, 0, some "INBOX"⟩, ⟨"Sent", "Sent", 0, 0, some "Sent"⟩,
        ⟨"Drafts", "Drafts", 0, 0, some "Drafts"⟩, ⟨"Trash", "Trash", 0, 0, some "Trash"⟩]) := by
  refine ⟨?_, ?_, ?_⟩
  · intro f hf
    rw [get_folders] at hf
    have hform : ∃ n : String, f = ⟨n, n, getUnread (folderCounts (lp.emails.map Prod.snd)) n,
        getTotal (folderCounts (lp.emails.map Prod.snd)) n, some n⟩ := by
      rcases List.mem_append.mp hf with hf | hf
      · obtain ⟨n, _, hn⟩ := List.mem_map.mp hf
        exact ⟨n, hn.symm⟩
      · obtain ⟨n, _, hn⟩ := List.mem_map.mp hf
        exact ⟨n, hn.symm⟩
    obtain ⟨n, rfl⟩ := hform
    constructor
    · show getTotal (folderCounts (lp.emails.map Prod.snd)) n = _
      rw [folderCounts, folderCounts_total_aux]
      simp [getTotal, dlookup]
    · show getUnread (folderCounts (lp.emails.map Prod.snd)) n = _
      rw [folderCounts, folderCounts_unread_aux]
      simp [getUnread, dlookup]
  · intro n
    rw [get_folders]
    rw [List.map_append, List.map_map, List.map_map, List.mem_append]
    have h1 : (FolderM.name ∘ fun n : String =>
        (⟨n, n, getUnread (folderCounts (lp.emails.map Prod.snd)) n,
          getTotal (folderCounts (lp.emails.map Prod.snd)) n, some n⟩ : FolderM)) = id := by
      funext x
      rfl
    rw [h1, List.map_id, List.map_id]
    constructor
    · intro h
      rcases h with h | h
      · exact Or.inl h
      · have h2 := (List.mem_filter.mp h).1
        rw [folderCounts, folderCounts_keys_aux] at h2
        rcases h2 with h2 | h2
        · simp at h2
        · exact Or.inr h2
    · intro h
      rcases h with h | h
      · exact Or.inl h
      · by_cases hd : n ∈ defaultFolders
        · exact Or.inl hd
        · refine Or.inr (List.mem_filter.mpr ⟨?_, by simpa using hd⟩)
          rw [folderCounts, folderCounts_keys_aux]
          exact Or.inr h
  · intro h
    rw [get_folders, h]
    rfl

theorem claim_C4_witness :
    ((∀ f ∈ get_folders ⟨"a@l", none, none, none, true, []⟩,
       f.total_count =
         (((⟨"a@l", none, none, none, true, []⟩ : LP).emails.map Prod.snd).filter
           (fun r => decide (r.folder = f.name))).length ∧
       f.unread_count =
         (((⟨"a@l", none, none, none, true, []⟩ : LP).emails.map Prod.snd).filter
           (fun r => decide (r.folder = f.name) && !r.is_read)).length) ∧
    (∀ n : String, n ∈ (get_folders ⟨"a@l", none, none, none, true, []⟩).map FolderM.name ↔
       n ∈ defaultFolders ∨
         ∃ r ∈ ((⟨"a@l", none, none, none, true, []⟩ : LP).emails.map Prod.snd), r.folder = n) ∧
    ((⟨"a@l", none, none, none, true, []⟩ : LP).emails = [] →
      get_folders ⟨"a@l", none, none, none, true, []⟩ =
       [⟨"INBOX", "INBOX", 0, 0, some "INBOX"⟩, ⟨"Sent", "Sent", 0, 0, some "Sent"⟩,
        ⟨"Drafts", "Drafts", 0, 0, some "Drafts"⟩, ⟨"Trash", "Trash", 0, 0, some "Trash"⟩])) ∧
    get_folders ⟨"a@l", none, none, none, true, []⟩ =
       [⟨"INBOX", "INBOX", 0, 0, some "INBOX"⟩, ⟨"Sent", "Sent", 0, 0, some "Sent"⟩,
        ⟨"Drafts", "Drafts", 0, 0, some "Drafts"⟩, ⟨"Trash", "Trash", 0, 0, some "Trash"⟩] :=
  ⟨claim_C4_folders _, (claim_C4_folders _).2.2 rfl⟩

/-! ## Delivery-loop lemmas -/

theorem deliverLoop_untouched (supply : Nat → String) (base : Rcd) (f : String) :
    ∀ (rs : List String) (fs : FileSys) (k : Nat), f ∉ rs.map fname →
      dlookup f (deliverLoop supply base fs rs k) = dlookup f fs
  | [], fs, k, _ => rfl
  | a :: rs, fs, k, h => by
    have hfa : f ≠ fname a := by
      intro hc
      exact h (by rw [hc]; exact List.mem_cons_self _ _)
    have hrs : f ∉ rs.map fname := fun hc => h (List.mem_cons_of_mem _ hc)
    rw [deliverLoop]
    cases hda : dlookup (fname a) fs with
    | none => exact deliverLoop_untouched supply base f rs fs k hrs
    | some doc =>
      rw [deliverLoop_untouched supply base f rs _ (k + 1) hrs]
      rw [dlookup_dinsert, if_neg (fun hc => hfa hc.symm)]

theorem deliverLoop_spec (supply : Nat → String) (base : Rcd) :
    ∀ (rs : List String) (fs : FileSys) (k : Nat),
      (∀ a ∈ rs, (dlookup (fname a) fs).isSome = true) →
      (rs.map fname).Nodup →
      (∀ i, k ≤ i → i < k + rs.length → ∀ f d, dlookup f fs = some d →
        supply i ∉ d.map Prod.fst) →
      (∀ i j, k ≤ i → i < k + rs.length → k ≤ j → j < k + rs.length →
        supply i = supply j → i = j) →
      ∀ (j : Nat) (hj : j < rs.length) (d : Mailbox),
        dlookup (fname (rs.get ⟨j, hj⟩)) fs = some d →
        dlookup (fname (rs.get ⟨j, hj⟩)) (deliverLoop supply base fs rs k) =
          some (d ++ [(supply (k + j),
            { base with id := supply (k + j), folder := "INBOX" })])
  | [], _, _, _, _, _, _, j, hj, _, _ => absurd hj (by simp)
  | a :: rs, fs, k, hloc, hnd, hfresh, hinj, j, hj, d, hd => by
    have hnd2 := by rw [List.map_cons] at hnd; exact hnd
    have hhead : fname a ∉ rs.map fname := (List.nodup_cons.mp hnd2).1
    have htail : (rs.map fname).Nodup := (List.nodup_cons.mp hnd2).2
    rw [deliverLoop]
    cases hda : dlookup (fname a) fs with
    | none =>
      have := hloc a (List.mem_cons_self _ _)
      rw [hda] at this
      simp at this
    | some doc =>
      cases j with
      | zero =>
        have hga : (a :: rs).get ⟨0, hj⟩ = a := rfl
        rw [hga] at hd ⊢
        rw [deliverLoop_untouched supply base _ rs _ (k + 1) hhead]
        rw [dlookup_dinsert, if_pos rfl]
        have hdd : doc = d := by
          rw [hd] at hda
          exact (Option.some.injEq _ _).mp hda.symm
        subst hdd
        rw [dinsert_append _ ((dlookup_none_iff doc (supply k)).mpr
          (hfresh k le_rfl (by simp) (fname a) doc hda))]
        rw [Nat.add_zero]
      | succ j2 =>
        have hj2 : j2 < rs.length := by simpa using hj
        have hga : (a :: rs).get ⟨j2 + 1, hj⟩ = rs.get ⟨j2, hj2⟩ := rfl
        rw [hga] at hd ⊢
        have hfneq : fname a ≠ fname (rs.get ⟨j2, hj2⟩) := by
          intro hc
          exact hhead (hc ▸ List.mem_map_of_mem fname (List.get_mem rs _ _))
        have hloc2 : ∀ a2 ∈ rs, (dlookup (fname a2)
            (dinsert fs (fname a)
              (dinsert doc (supply k)
                { base with id := supply k, folder := "INBOX" }))).isSome = true := by
          intro a2 ha2
          rw [dlookup_dinsert]
          by_cases he : fname a = fname a2
          · rw [if_pos he]
            rfl
          · rw [if_neg he]
            exact hloc a2 (List.mem_cons_of_mem _ ha2)
        have hfresh2 : ∀ i, k + 1 ≤ i → i < (k + 1) + rs.length →
            ∀ f d2, dlookup f (dinsert fs (fname a)
              (dinsert doc (supply k)
                { base with id := supply k, folder := "INBOX" })) = some d2 →
            supply i ∉ d2.map Prod.fst := by
          intro i hi1 hi2 f d2 hfd2
          have hik : i < k + (a :: rs).length := by
            rw [List.length_cons]
            omega
          rw [dlookup_dinsert] at hfd2
          by_cases he : fname a = f
          · rw [if_pos he] at hfd2
            have hd2 : d2 = dinsert doc (supply k)
                { base with id := supply k, folder := "INBOX" } :=
              ((Option.some.injEq _ _).mp hfd2).symm
            subst hd2
            intro hmem
            rcases (dinsert_keys _ _ _ _).mp hmem with hmem | hmem
            · exact hfresh i (by omega) hik (fname a) doc hda hmem
            · have := hinj i k (by omega) hik le_rfl (by rw [List.length_cons]; omega) hmem
              omega
          · rw [if_neg he] at hfd2
            exact hfresh i (by omega) hik f d2 hfd2
        have hinj2 : ∀ i i2, k + 1 ≤ i → i < (k + 1) + rs.length →
            k + 1 ≤ i2 → i2 < (k + 1) + rs.length → supply i = supply i2 → i = i2 := by
          intro i i2 h1 h2 h3 h4 h5
          exact hinj i i2 (by omega) (by rw [List.length_cons]; omega)
            (by omega) (by rw [List.length_cons]; omega) h5
        have hd2 : dlookup (fname (rs.get ⟨j2, hj2⟩))
            (dinsert fs (fname a)
              (dinsert doc (supply k)
                { base with id := supply k, folder := "INBOX" })) = some d := by
          rw [dlookup_dinsert, if_neg hfneq]
          exact hd
        have := deliverLoop_spec supply base rs _ (k + 1) hloc2 htail hfresh2 hinj2
          j2 hj2 d hd2
        rw [this]
        have harith : k + 1 + j2 = k + (j2 + 1) := by omega
        rw [harith]

/-- C1 (amended): on a connected provider with no relay configured, sending
to a list of local recipients whose mailbox documents are pairwise distinct
and distinct from the sender's own document returns true, appends exactly
one new "Sent" record to the sender's store (persisted to the sender's
document), and appends to each recipient's document exactly one new record
with folder "INBOX" and an id different from the Sent-copy id. -/
theorem claim_C1_send_local (lp : LP) (fs : FileSys) (supply : Nat → String)
    (to_addresses : List String) (subject body : String) (html_body : Option String)
    (cc bcc : Option (List String)) (atts : Option (List Attachment)) (now : Nat)
    (hconn : lp.connected = true)
    (_hrelay : lp.smtp_server = none)
    (hlocal : ∀ a ∈ to_addresses, (dlookup (fname a) fs).isSome = true)
    (hnd : (to_addresses.map fname).Nodup)
    (hself : fname lp.email_address ∉ to_addresses.map fname)
    (hinj : ∀ i, i ≤ to_addresses.length → ∀ j, j ≤ to_addresses.length →
      supply i = supply j → i = j)
    (hfm : ∀ i, i ≤ to_addresses.length → supply i ∉ lp.emails.map Prod.fst)
    (hff : ∀ i, i ≤ to_addresses.length → ∀ f d, dlookup f fs = some d →
      supply i ∉ d.map Prod.fst) :
    (send_email lp fs true supply to_addresses subject body html_body cc bcc atts now).1 =
      true ∧
    (send_email lp fs true supply to_addresses subject body html_body cc bcc atts now).2.1.emails =
      lp.emails ++ [(supply 0,
        sentRecord lp supply to_addresses subject body html_body cc bcc atts now)] ∧
    (sentRecord lp supply to_addresses subject body html_body cc bcc atts now).folder =
      "Sent" ∧
    dlookup (fname lp.email_address)
        (send_email lp fs true supply to_addresses subject body html_body cc bcc atts now).2.2 =
      some (lp.emails ++ [(supply 0,
        sentRecord lp supply to_addresses subject body html_body cc bcc atts now)]) ∧
    ∀ (j : Nat) (hj : j < to_addresses.length) (d : Mailbox),
      dlookup (fname (to_addresses.get ⟨j, hj⟩)) fs = some d →
      dlookup (fname (to_addresses.get ⟨j, hj⟩))
          (send_email lp fs true supply to_addresses subject body html_body cc bcc atts
            now).2.2 =
        some (d ++ [(supply (j + 1),
          { sentRecord lp supply to_addresses subject body html_body cc bcc atts now with
              id := supply (j + 1), folder := "INBOX" })]) ∧
      supply (j + 1) ≠ supply 0 := by
  have hfilter : to_addresses.filter (fun a => (dlookup (fname a) fs).isSome) =
      to_addresses := List.filter_eq_self.mpr hlocal
  set sent := sentRecord lp supply to_addresses subject body html_body cc bcc atts now
    with hsent
  have hres : send_email lp fs true supply to_addresses subject body html_body cc bcc atts
      now =
      (true,
       { lp with emails := dinsert lp.emails (supply 0) sent },
       dinsert (deliverLoop supply sent fs to_addresses 1)
         (fname lp.email_address)
         (dinsert lp.emails (supply 0) sent)) := by
    rw [send_email, hconn, if_neg (by decide), hfilter, hsent]
    rfl
  have happend : dinsert lp.emails (supply 0) sent =
      lp.emails ++ [(supply 0, sent)] :=
    dinsert_append _ ((dlookup_none_iff _ _).mpr (hfm 0 (Nat.zero_le _)))
  refine ⟨by rw [hres], by rw [hres]; exact happend, rfl, ?_, ?_⟩
  · rw [hres]
    show dlookup (fname lp.email_address) (dinsert _ (fname lp.email_address) _) = _
    rw [dlookup_dinsert, if_pos rfl, happend]
  · intro j hj d hd
    have hmem : fname (to_addresses.get ⟨j, hj⟩) ∈ to_addresses.map fname :=
      List.mem_map_of_mem fname (List.get_mem to_addresses _ _)
    have hne : fname lp.email_address ≠ fname (to_addresses.get ⟨j, hj⟩) := by
      intro hc
      exact hself (hc ▸ hmem)
    constructor
    · rw [hres]
      show dlookup _ (dinsert _ (fname lp.email_address) _) = _
      rw [dlookup_dinsert, if_neg hne]
      have hspec := deliverLoop_spec supply sent
        to_addresses fs 1 hlocal hnd
        (fun i hi1 hi2 f d2 hd2 => hff i (by omega) f d2 hd2)
        (fun i i2 h1 h2 h3 h4 h5 => hinj i (by omega) i2 (by omega) h5)
        j hj d hd
      rw [hspec]
      have harith : 1 + j = j + 1 := by omega
      rw [harith]
    · intro hc
      have := hinj (j + 1) (by omega) 0 (Nat.zero_le _) hc
      omega

def lpS : LP := ⟨"alice@local", none, none, none, true, []⟩

def fsS : FileSys := [("bob_at_local", [])]

def supS : Nat → String := fun n => "u" ++ toString n

theorem claim_C1_witness :
    lpS.connected = true ∧ lpS.smtp_server = none ∧
    (dlookup (fname "bob@local") fsS).isSome = true ∧
    ((send_email lpS fsS true supS ["bob@local"] "Hi" "Hello" none none none none 5).1 =
      true ∧
    dlookup (fname lpS.email_address)
        (send_email lpS fsS true supS ["bob@local"] "Hi" "Hello" none none none none 5).2.2 =
      some (lpS.emails ++
        [(supS 0, sentRecord lpS supS ["bob@local"] "Hi" "Hello" none none none none 5)]) ∧
    dlookup (fname "bob@local")
        (send_email lpS fsS true supS ["bob@local"] "Hi" "Hello" none none none none 5).2.2 =
      some ([] ++ [(supS 1,
        { sentRecord lpS supS ["bob@local"] "Hi" "Hello" none none none none 5 with
            id := supS 1, folder := "INBOX" })]) ∧
    supS 1 ≠ supS 0) := by
  have hff : ∀ i, i ≤ (["bob@local"] : List String).length → ∀ f d, dlookup f fsS = some d →
      supS i ∉ d.map Prod.fst := by
    intro i _ f d hfd
    rw [fsS, dlookup] at hfd
    by_cases hbf : "bob_at_local" = f
    · rw [if_pos hbf] at hfd
      have hd : ([] : Mailbox) = d := (Option.some.injEq _ _).mp hfd
      rw [← hd]
      simp
    · rw [if_neg hbf, dlookup] at hfd
      exact absurd hfd (by simp)
  have h := claim_C1_send_local lpS fsS supS ["bob@local"] "Hi" "Hello" none none none none 5
    rfl rfl (by decide) (by decide) (by decide) (by decide) (by decide) hff
  exact ⟨rfl, rfl, by decide, h.1, h.2.2.2.1,
    (h.2.2.2.2 0 (by decide) [] (by decide)).1, (h.2.2.2.2 0 (by decide) [] (by decide)).2⟩

/-- C1 counterexample: a connected provider with no relay whose recipient
list is purely local but contains the sender's own address.  The send
reports success, yet the recipient's (the sender's own) mailbox document
ends up with no INBOX record at all: the delivery is overwritten by the
final `_save_emails` rewrite of the same file. -/
theorem claim_C1_cex :
    lpS.connected = true ∧ lpS.smtp_server = none ∧
    (dlookup (fname "alice@local") [("alice_at_local", ([] : Mailbox))]).isSome = true ∧
    (send_email lpS [("alice_at_local", [])] true supS ["alice@local"] "Hi" "Hello"
      none none none none 5).1 = true ∧
    ((dlookup "alice_at_local"
        (send_email lpS [("alice_at_local", [])] true supS ["alice@local"] "Hi" "Hello"
          none none none none 5).2.2).getD []).countP
      (fun p => decide (p.2.folder = "INBOX")) = 0 := by
  decide

/-! ## Claim theorems: normalizer and HTML renderer -/

/-- C7 (amended): when the parsed body text is empty and a non-empty HTML
body exists, `_parse_email` sets the body text to the rendered HTML; the
result is non-empty exactly when the renderer's output is non-empty (an
HTML body whose rendering is empty, e.g. style-only markup, still yields an
empty body text). -/
theorem claim_C7_html_fallback (email_id : String) (m : MimeBody)
    (hh : (parseBodyRaw email_id m).body_html ≠ "")
    (ht : (parseBodyRaw email_id m).body_text = "") :
    (parseBody email_id m).body_text = html_to_text (parseBodyRaw email_id m).body_html ∧
    (parseBody email_id m).body_html = (parseBodyRaw email_id m).body_html ∧
    (html_to_text (parseBodyRaw email_id m).body_html ≠ "" →
      (parseBody email_id m).body_text ≠ "") := by
  have hres : parseBody email_id m =
      { parseBodyRaw email_id m with
          body_text := html_to_text (parseBodyRaw email_id m).body_html } := by
    rw [parseBody]
    show (if (parseBodyRaw email_id m).body_html ≠ "" ∧
        (parseBodyRaw email_id m).body_text = "" then _ else _) = _
    rw [if_pos ⟨hh, ht⟩]
  rw [hres]
  exact ⟨rfl, rfl, fun h => h⟩

def mStyle : MimeBody := .multi [⟨"multipart/alternative", "", none, none⟩,
  ⟨"text/html", "", none, some "<style>a</style>"⟩]

/-- C7 counterexample: a multipart message with only a style-element HTML
part.  The normalized message has a non-empty `body_html` but its
`body_text` is empty, because `html_to_text` renders the style-only HTML to
the empty string: body text is not "never empty when an HTML body exists". -/
theorem claim_C7_cex :
    (parseBodyRaw "1" mStyle).body_html = "<style>a</style>" ∧
    (parseBodyRaw "1" mStyle).body_text = "" ∧
    (parseBody "1" mStyle).body_html = "<style>a</style>" ∧
    (parseBody "1" mStyle).body_text = "" := by decide

def mGood : MimeBody := .multi [⟨"multipart/alternative", "", none, none⟩,
  ⟨"text/html", "", none, some "<b>hi</b>"⟩]

theorem claim_C7_witness :
    (parseBodyRaw "1" mGood).body_html ≠ "" ∧
    (parseBodyRaw "1" mGood).body_text = "" ∧
    ((parseBody "1" mGood).body_text = html_to_text (parseBodyRaw "1" mGood).body_html ∧
    (parseBody "1" mGood).body_html = (parseBodyRaw "1" mGood).body_html ∧
    (html_to_text (parseBodyRaw "1" mGood).body_html ≠ "" →
      (parseBody "1" mGood).body_text ≠ "")) :=
  ⟨by decide, by decide, claim_C7_html_fallback "1" mGood (by decide) (by decide)⟩

/-- C8 (amended): `html_to_text` never fails (it is a total function), maps
the empty string to the empty string, and is idempotent on every input whose
first rendering contains neither `<` nor `&` — i.e. whenever re-parsing the
output cannot re-interpret it as markup.  (Full idempotence fails: see the
counterexample, where decoded entities are re-parsed as tags on the second
pass.) -/
theorem claim_C8_idem (s : String)
    (h1 : '<' ∉ (html_to_text s).data) (h2 : '&' ∉ (html_to_text s).data) :
    html_to_text (html_to_text s) = html_to_text s ∧ html_to_text "" = "" := by
  constructor
  · show (⟨htmlCore (htmlCore s.data)⟩ : String) = ⟨htmlCore s.data⟩
    rw [htmlCore_idem s.data h1 h2]
  · rfl

theorem claim_C8_witness :
    '<' ∉ (html_to_text "a<br>b").data ∧ '&' ∉ (html_to_text "a<br>b").data ∧
    (html_to_text (html_to_text "a<br>b") = html_to_text "a<br>b" ∧
      html_to_text "" = "") :=
  ⟨by decide, by decide, claim_C8_idem "a<br>b" (by decide) (by decide)⟩

/-- C8 counterexample: `html_to_text` is not idempotent.  Entity references
are decoded into markup on the first pass and the second pass parses that
markup as HTML. -/
theorem claim_C8_cex :
    html_to_text "&lt;p&gt;hello&lt;/p&gt;" = "<p>hello</p>" ∧
    html_to_text (html_to_text "&lt;p&gt;hello&lt;/p&gt;") = "hello" ∧
    html_to_text (html_to_text "&lt;p&gt;hello&lt;/p&gt;") ≠
      html_to_text "&lt;p&gt;hello&lt;/p&gt;" := by
  decide

/-- C9 (amended): the output of `html_to_text` contains no blank line at
all — every empty line is dropped by the cleanup, so any run of blank lines
(including runs of three or more) collapses to nothing, not to one blank
line — and the output carries no leading or trailing whitespace. -/
theorem claim_C9_no_blank (s : String) :
    hasNN (html_to_text s).data = false ∧
    pyStrip (html_to_text s).data = (html_to_text s).data :=
  ⟨htmlCore_noNN s.data, htmlCore_stripped s.data⟩

/-- C9 counterexample: an input with a run of three blank lines produces an
output with no blank line (`"a\nb"`), not exactly one blank line
(`"a\n\nb"`). -/
theorem claim_C9_cex :
    html_to_text "a\n\n\n\nb" = "a\nb" ∧
    html_to_text "a\n\n\n\nb" ≠ "a\n\nb" ∧
    hasNN (html_to_text "a\n\n\n\nb").data = false := by
  decide
